import Mathlib

/- Shallow embedding of src/main.js of the focus repository.

   Conventions of the embedding:
   - JS strings are lists of characters (Str). JS default string comparison
     (used by Array.sort on two strings) is lexicographic by code unit,
     embedded as strLt on the character codepoints.
   - JS Maps with string keys are association lists with the Map semantics:
     set overwrites an existing key in place and appends a new key at the
     end; get is the first (hence unique) matching entry.
   - JS Sets of strings are lists with membership-guarded insertion.
   - Opacities and coordinates are rationals; the numeric literals 0.7,
     0.15, 0.8, 0.6 of the source are the exact rationals 7/10, 3/20, 4/5,
     3/5 (float rounding is irrelevant at this granularity and is not
     modelled).
   - Falsy-guarded JS reads (value || fallback, if (value) ...) are
     embedded with an explicit emptiness / zero test, matching JS
     truthiness on the types that actually occur (strings and numbers). -/

abbrev Str := List Char

/-- Whitespace test used by the embedding of String.prototype.trim
    (the common ASCII whitespace characters). -/
def isJsSpace (c : Char) : Bool :=
  c = ' ' || c = '\t' || c = '\n' || c = '\r'

/-- Embedding of String.prototype.trim. -/
def jsTrim (s : Str) : Str :=
  ((s.dropWhile isJsSpace).reverse.dropWhile isJsSpace).reverse

/-- Embedding of String.prototype.toLowerCase (ASCII range, which covers
    every literal the source compares against). -/
def jsToLower (s : Str) : Str := s.map Char.toLower

/-- Tests whether the second list starts with the first list. -/
def leadsWith : Str → Str → Bool
  | [], _ => true
  | _ :: _, [] => false
  | a :: as, b :: bs => a = b && leadsWith as bs

/-- Embedding of String.prototype.includes: contiguous substring test. -/
def strIncludes : Str → Str → Bool
  | hay, needle =>
    leadsWith needle hay ||
      match hay with
      | [] => false
      | _ :: t => strIncludes t needle

/-- Embedding of the JS default string comparison (lexicographic by code
    unit), as used by Array.prototype.sort on the two link endpoint ids. -/
def strLt : Str → Str → Bool
  | _, [] => false
  | [], _ :: _ => true
  | a :: as, b :: bs =>
    if a < b then true
    else if b < a then false
    else strLt as bs

/-- Embedding of Map.prototype.get. -/
def mapLookup {α : Type} : List (Str × α) → Str → Option α
  | [], _ => none
  | (k, v) :: rest, x => if k = x then some v else mapLookup rest x

/-- Embedding of Map.prototype.set: overwrite in place, append if new. -/
def mapSet {α : Type} : List (Str × α) → Str → α → List (Str × α)
  | [], k, v => [(k, v)]
  | (k0, v0) :: rest, k, v =>
    if k0 = k then (k, v) :: rest else (k0, v0) :: mapSet rest k v

/-- Embedding of the JS idiom (stringValue || fallback): the empty string
    is falsy. -/
def jsOrStr (o : Option Str) (dflt : Str) : Str :=
  match o with
  | some v => if v.isEmpty then dflt else v
  | none => dflt

/-- Embedding of the JS idiom (numberValue || fallback): zero is falsy. -/
def jsOrQ (o : Option ℚ) (dflt : ℚ) : ℚ :=
  match o with
  | some v => if v = 0 then dflt else v
  | none => dflt

/-- Node record as produced by normalizeData in src/main.js (the fields the
    layout, highlight, filter and automation engine reads). -/
structure GNode where
  id : Str
  name : Str
  type : Str
  tag : Str
  matrixTag : Str
  orderTag : Str
  color : Str
  prettyColor : Str
  connectedTechniques : List Str
deriving DecidableEq

/-- Link record: the source and target fields of a link after the
    defensive id resolution (typeof l.source === 'object' ? l.source.id :
    l.source) both denote the endpoint id. -/
structure RawLink where
  source : Str
  target : Str
deriving DecidableEq

/-- Global mutable state of src/main.js that the automation engine reads
    and writes (the mode flags and the two original-value stashes), plus
    the nodes array whose color fields the automations mutate. -/
structure EngineState where
  nodes : List GNode
  nodeOriginalColors : List (Str × Str)
  nodeOriginalShapes : List (Str × Str)
  isTidyMode : Bool
  isEisenhowerMode : Bool
  isPrettyMode : Bool
  isCoworkingMode : Bool
  isWriteDownMode : Bool
  isReversedListMode : Bool
deriving DecidableEq

/-- Startup state: all flags false, both stashes empty (src/main.js lines
    19 to 26). -/
def initState (ns : List GNode) : EngineState :=
  { nodes := ns
    nodeOriginalColors := []
    nodeOriginalShapes := []
    isTidyMode := false
    isEisenhowerMode := false
    isPrettyMode := false
    isCoworkingMode := false
    isWriteDownMode := false
    isReversedListMode := false }

/-- Embedding of tidyUp (src/main.js lines 603 to 605: the flag writes;
    the force and background-layer work is rendering). The flags are set
    before the early return on an empty tag set, so they are
    unconditional. -/
def tidyUp (s : EngineState) : EngineState :=
  { s with isTidyMode := true, isEisenhowerMode := false }

/-- Embedding of messUp (src/main.js lines 672 to 683: the flag writes). -/
def messUp (s : EngineState) : EngineState :=
  { s with isTidyMode := false, isEisenhowerMode := false }

/-- Embedding of eisenhowerMatrix (src/main.js lines 947 to 949: the flag
    writes; the forces are embedded separately as eisenhowerForceX and
    eisenhowerForceY). Note that the source sets isTidyMode to true here. -/
def eisenhowerMatrix (s : EngineState) : EngineState :=
  { s with isTidyMode := true, isEisenhowerMode := true }

/-- Per-node body of prettyItUp (src/main.js lines 692 to 697): stash the
    current color when no stash entry exists, then set the color to
    prettyColor; the stash is threaded through the iteration. -/
def prettyVisit : List GNode → List (Str × Str) → List GNode × List (Str × Str)
  | [], st => ([], st)
  | n :: rest, st =>
    let st1 := if (mapLookup st n.id).isSome then st else mapSet st n.id n.color
    let out := prettyVisit rest st1
    ({ n with color := n.prettyColor } :: out.1, out.2)

/-- Embedding of prettyItUp (src/main.js lines 688 to 719; interface and
    label recoloring is rendering). -/
def prettyItUp (s : EngineState) : EngineState :=
  let out := prettyVisit s.nodes s.nodeOriginalColors
  { s with isPrettyMode := true, nodes := out.1, nodeOriginalColors := out.2 }

/-- Embedding of colorBombing (src/main.js lines 724 to 756): each node
    color becomes nodeOriginalColors.get(id) || currentColor. -/
def colorBombing (s : EngineState) : EngineState :=
  { s with
    isPrettyMode := false
    nodes := s.nodes.map (fun n =>
      { n with color := jsOrStr (mapLookup s.nodeOriginalColors n.id) n.color }) }

/-- Shared shape-stash step of coworking, pomodoro and guilty (store the
    string circle for every node without a shape stash entry). -/
def stashShapes (ns : List GNode) (st : List (Str × Str)) : List (Str × Str) :=
  ns.foldl
    (fun m n => if (mapLookup m n.id).isSome then m else mapSet m n.id ("circle".toList))
    st

/-- Embedding of coworking (src/main.js lines 761 to 787); the glyph
    rendering itself is display work. -/
def coworking (s : EngineState) : EngineState :=
  { s with isCoworkingMode := true,
           nodeOriginalShapes := stashShapes s.nodes s.nodeOriginalShapes }

/-- Embedding of pomodoro (src/main.js lines 884 to 910): same state
    effect as coworking, different glyph. -/
def pomodoro (s : EngineState) : EngineState :=
  { s with isCoworkingMode := true,
           nodeOriginalShapes := stashShapes s.nodes s.nodeOriginalShapes }

/-- Embedding of guilty (src/main.js lines 915 to 942): same state effect
    as coworking, different glyphs. -/
def guilty (s : EngineState) : EngineState :=
  { s with isCoworkingMode := true,
           nodeOriginalShapes := stashShapes s.nodes s.nodeOriginalShapes }

/-- Per-node restore idiom shared by runAway and ordinaryList: read the
    stashed color and, when one exists and is truthy, write it back
    (if (originalColor) { d.color = originalColor }). -/
def restoreColor (st : List (Str × Str)) (n : GNode) : GNode :=
  match mapLookup st n.id with
  | some c => if c.isEmpty then n else { n with color := c }
  | none => n

/-- Embedding of runAway (src/main.js lines 792 to 820): restore circles;
    in pretty mode recolor to prettyColor, otherwise restore the stashed
    color when one exists (if (originalColor), a truthiness test). -/
def runAway (s : EngineState) : EngineState :=
  { s with
    isCoworkingMode := false
    nodes := s.nodes.map (fun n =>
      if s.isPrettyMode then { n with color := n.prettyColor }
      else restoreColor s.nodeOriginalColors n) }

/-- Embedding of writeDown (src/main.js lines 825 to 831: the flag; the
    attribute write is rendering). -/
def writeDown (s : EngineState) : EngineState :=
  { s with isWriteDownMode := true }

/-- Embedding of keepIt (src/main.js lines 836 to 843). -/
def keepIt (s : EngineState) : EngineState :=
  { s with isWriteDownMode := false }

/-- The done test of reversedList (src/main.js line 853):
    d.tag && d.tag.toLowerCase().trim() === 'done'. -/
def hasDoneTag (n : GNode) : Bool :=
  !n.tag.isEmpty && jsTrim (jsToLower n.tag) == "done".toList

/-- Per-node body of reversedList (src/main.js lines 851 to 863): for each
    node whose tag is done, stash the current color when absent and
    recolor to the completion green. -/
def reversedVisit : List GNode → List (Str × Str) → List GNode × List (Str × Str)
  | [], st => ([], st)
  | n :: rest, st =>
    if hasDoneTag n then
      let st1 := if (mapLookup st n.id).isSome then st else mapSet st n.id n.color
      let out := reversedVisit rest st1
      ({ n with color := "#03BA6D".toList } :: out.1, out.2)
    else
      let out := reversedVisit rest st
      (n :: out.1, out.2)

/-- Embedding of reversedList (src/main.js lines 848 to 864). -/
def reversedList (s : EngineState) : EngineState :=
  let out := reversedVisit s.nodes s.nodeOriginalColors
  { s with isReversedListMode := true, nodes := out.1, nodeOriginalColors := out.2 }

/-- Embedding of ordinaryList (src/main.js lines 869 to 879): restore the
    stashed color for every node that has one (if (originalColor), a
    truthiness test); the stash is read, never written. -/
def ordinaryList (s : EngineState) : EngineState :=
  { s with
    isReversedListMode := false
    nodes := s.nodes.map (restoreColor s.nodeOriginalColors) }

/-- Names of the registered automations of executeAutomation
    (src/main.js lines 551 to 598). -/
inductive Automation
  | tidyUp | messUp | prettyItUp | colorBombing | coworking | runAway
  | writeDown | keepIt | reversedList | ordinaryList | animation
  | pomodoro | guilty | eisenhowerMatrix
deriving DecidableEq

/-- Embedding of executeAutomation: dispatch by name. The animation case
    only opens the video overlay and leaves the engine state unchanged. -/
def executeAutomation : Automation → EngineState → EngineState
  | .tidyUp, s => tidyUp s
  | .messUp, s => messUp s
  | .prettyItUp, s => prettyItUp s
  | .colorBombing, s => colorBombing s
  | .coworking, s => coworking s
  | .runAway, s => runAway s
  | .writeDown, s => writeDown s
  | .keepIt, s => keepIt s
  | .reversedList, s => reversedList s
  | .ordinaryList, s => ordinaryList s
  | .animation, s => s
  | .pomodoro, s => pomodoro s
  | .guilty, s => guilty s
  | .eisenhowerMatrix, s => eisenhowerMatrix s

/-- A sequence of automation dispatches. -/
def runAutomations (ops : List Automation) (s : EngineState) : EngineState :=
  ops.foldl (fun st op => executeAutomation op st) s

/-- A positional force on one axis: the per-node target coordinate and the
    pull strength, as handed to d3.forceX / d3.forceY. -/
structure AxisForce where
  target : Str → ℚ
  strength : ℚ

/-- Embedding of the d3.forceX callback of eisenhowerMatrix (src/main.js
    lines 1027 to 1040), with columnWidth = width / 2 from line 960. -/
def eisenhowerForceX (width : ℚ) : AxisForce :=
  { target := fun matrixTag =>
      let columnWidth := width / 2
      if matrixTag.isEmpty || (jsTrim matrixTag).isEmpty then width / 2
      else
        let tag := jsToLower matrixTag
        if strIncludes tag ("urgent".toList) && !strIncludes tag ("not urgent".toList) then
          columnWidth / 2
        else if strIncludes tag ("not urgent".toList) then
          columnWidth * 1.5
        else width / 2
    strength := 0.8 }

/-- Embedding of the d3.forceY callback of eisenhowerMatrix (src/main.js
    lines 1042 to 1055), with rowHeight = height / 2 from line 961. -/
def eisenhowerForceY (height : ℚ) : AxisForce :=
  { target := fun matrixTag =>
      let rowHeight := height / 2
      if matrixTag.isEmpty || (jsTrim matrixTag).isEmpty then height / 2
      else
        let tag := jsToLower matrixTag
        if strIncludes tag ("important".toList) && !strIncludes tag ("not important".toList) then
          rowHeight / 2
        else if strIncludes tag ("not important".toList) then
          rowHeight * 1.5
        else height / 2
    strength := 0.8 }

/-- Quadrant x target as claim C7 words it: blank tag to the viewport
    center, urgent (and not not-urgent) to the center of the left half,
    not-urgent to the center of the right half, otherwise the horizontal
    center. -/
def quadrantXSpec (width : ℚ) (matrixTag : Str) : ℚ :=
  if matrixTag.isEmpty || (jsTrim matrixTag).isEmpty then width / 2
  else
    let tag := jsToLower matrixTag
    if strIncludes tag ("urgent".toList) && !strIncludes tag ("not urgent".toList) then
      width / 4
    else if strIncludes tag ("not urgent".toList) then
      3 * width / 4
    else width / 2

/-- Quadrant y target as claim C7 words it, the symmetric vertical rule. -/
def quadrantYSpec (height : ℚ) (matrixTag : Str) : ℚ :=
  if matrixTag.isEmpty || (jsTrim matrixTag).isEmpty then height / 2
  else
    let tag := jsToLower matrixTag
    if strIncludes tag ("important".toList) && !strIncludes tag ("not important".toList) then
      height / 4
    else if strIncludes tag ("not important".toList) then
      3 * height / 4
    else height / 2

/-- Embedding of updatePopupPosition (src/main.js lines 1165 to 1175):
    screen position of the tracked node under the zoom transform, plus the
    fixed 15 pixel offset on each axis. -/
def updatePopupPosition (nx ny k tx ty : ℚ) : ℚ × ℚ :=
  let x := nx * k + tx
  let y := ny * k + ty
  (x + 15, y + 15)

/-- Claim C9 (confirmed): the popup anchor is (x * k + tx + 15, y * k + ty
    + 15) for the fixed offset 15, and in particular equals (2x + 10 + 15,
    2y + 20 + 15) under the transform k = 2, tx = 10, ty = 20. -/
theorem C9_popup_anchor (nx ny k tx ty : ℚ) :
    updatePopupPosition nx ny k tx ty = (nx * k + tx + 15, ny * k + ty + 15)
      ∧ updatePopupPosition nx ny 2 10 20 = (2 * nx + 10 + 15, 2 * ny + 20 + 15) := by
  constructor
  · rfl
  · simp only [updatePopupPosition, Prod.mk.injEq]
    constructor <;> ring

/-- Claim C7 (confirmed): the quadrant layout maps each node by
    lower-cased substring match on matrixTag, with urgent (and not
    not-urgent) at the center of the left half, not-urgent at the center
    of the right half, otherwise the horizontal center, the symmetric rule
    for important on the vertical axis, a blank tag at the viewport center
    on both axes, and strength 0.8 on both axis forces. -/
theorem C7_eisenhower_mapping (width height : ℚ) (matrixTag : Str) :
    (eisenhowerForceX width).target matrixTag = quadrantXSpec width matrixTag
      ∧ (eisenhowerForceY height).target matrixTag = quadrantYSpec height matrixTag
      ∧ (eisenhowerForceX width).strength = 4 / 5
      ∧ (eisenhowerForceY height).strength = 4 / 5 := by
  refine ⟨?_, ?_, by norm_num [eisenhowerForceX], by norm_num [eisenhowerForceY]⟩
  · simp only [eisenhowerForceX, quadrantXSpec]
    split
    · rfl
    · split
      · ring
      · split
        · norm_num
          ring
        · rfl
  · simp only [eisenhowerForceY, quadrantYSpec]
    split
    · rfl
    · split
      · ring
      · split
        · norm_num
          ring
        · rfl

/-- Claim C1 (corrected), counterexample: dispatching eisenhowerMatrix
    while tidy layout is active leaves isTidyMode true (the source sets
    both flags to true), so the claimed state tidy=false, eisenhower=true
    is not reached and the two flags are simultaneously true. -/
theorem C1_layout_flags_counterexample :
    (runAutomations [Automation.tidyUp, Automation.eisenhowerMatrix] (initState [])).isTidyMode
        = true
      ∧ (runAutomations [Automation.tidyUp, Automation.eisenhowerMatrix]
          (initState [])).isEisenhowerMode = true := by
  exact ⟨rfl, rfl⟩

/-- Claim C1 (corrected), amended: activating the quadrant layout sets
    isTidyMode = true and isEisenhowerMode = true (it does not clear the
    tidy flag); activating tidy sets isTidyMode = true and
    isEisenhowerMode = false; and along every sequence of automation
    dispatches from the startup state, whenever the eisenhower flag is
    true the tidy flag is true as well. -/
theorem C1_layout_flags_amended :
    (∀ s : EngineState,
        (eisenhowerMatrix s).isTidyMode = true ∧ (eisenhowerMatrix s).isEisenhowerMode = true)
      ∧ (∀ s : EngineState,
        (tidyUp s).isTidyMode = true ∧ (tidyUp s).isEisenhowerMode = false)
      ∧ (∀ (ops : List Automation) (ns : List GNode),
        (runAutomations ops (initState ns)).isEisenhowerMode = true →
          (runAutomations ops (initState ns)).isTidyMode = true) := by
  refine ⟨fun s => ⟨rfl, rfl⟩, fun s => ⟨rfl, rfl⟩, ?_⟩
  have step : ∀ (op : Automation) (s : EngineState),
      (s.isEisenhowerMode = true → s.isTidyMode = true) →
      ((executeAutomation op s).isEisenhowerMode = true →
        (executeAutomation op s).isTidyMode = true) := by
    intro op s h
    cases op <;>
      first
      | exact h
      | exact fun hh => Bool.noConfusion hh
      | exact fun _ => rfl
  intro ops ns
  have main : ∀ (l : List Automation) (s : EngineState),
      (s.isEisenhowerMode = true → s.isTidyMode = true) →
      ((runAutomations l s).isEisenhowerMode = true → (runAutomations l s).isTidyMode = true) := by
    intro l
    induction l with
    | nil => intro s h; exact h
    | cons op rest ih =>
      intro s h
      exact ih (executeAutomation op s) (step op s h)
  exact main ops (initState ns) (by intro h; cases h)

/-- Witness for C1: the amended statement applied at a concrete dispatch
    sequence. -/
theorem C1_layout_flags_witness :
    (runAutomations [Automation.eisenhowerMatrix] (initState [])).isTidyMode = true :=
  C1_layout_flags_amended.2.2 [Automation.eisenhowerMatrix] [] (by rfl)

/- Generic machinery for the nodeOpacityMap / techniqueMap idiom of the
   source: build a Map keyed by node id by iterating the nodes array. -/

/-- Builds a JS Map keyed by node id whose value for each node is f of the
    node, in iteration order (as nodeGroups.each plus Map.set does). -/
def buildMap {α : Type} (f : GNode → α) (ns : List GNode) : List (Str × α) :=
  ns.foldl (fun m n => mapSet m n.id (f n)) []

theorem mapLookup_mapSet {α : Type} (m : List (Str × α)) (k x : Str) (v : α) :
    mapLookup (mapSet m k v) x = if k = x then some v else mapLookup m x := by
  induction m with
  | nil => rfl
  | cons p rest ih =>
    obtain ⟨k0, v0⟩ := p
    by_cases hk : k0 = k
    · subst hk
      by_cases hx : k0 = x <;> simp [mapSet, mapLookup, hx]
    · by_cases hx : k0 = x
      · subst hx
        have hkx : ¬k = k0 := fun h => hk h.symm
        simp [mapSet, hk, mapLookup, hkx]
      · simp [mapSet, hk, mapLookup, hx, ih]

theorem buildMap_go_lookup {α : Type} (f : GNode → α) (ns : List GNode)
    (m0 : List (Str × α)) (x : Str) :
    mapLookup (ns.foldl (fun m n => mapSet m n.id (f n)) m0) x =
      match ns.reverse.find? (fun n => decide (n.id = x)) with
      | some n => some (f n)
      | none => mapLookup m0 x := by
  induction ns using List.reverseRecOn with
  | nil => rfl
  | append_singleton ns n ih =>
    rw [List.foldl_append]
    simp only [List.foldl_cons, List.foldl_nil, List.reverse_append, List.reverse_singleton,
      List.singleton_append, List.find?_cons]
    rw [mapLookup_mapSet]
    by_cases hx : n.id = x
    · simp [hx]
    · simp only [if_neg hx, decide_eq_true_eq]
      rw [ih]
      simp [hx]

theorem find?_id_of_nodup (ns : List GNode) (hN : (ns.map GNode.id).Nodup)
    (n : GNode) (hn : n ∈ ns) :
    ns.find? (fun m => decide (m.id = n.id)) = some n := by
  induction ns with
  | nil => cases hn
  | cons h rest ih =>
    simp only [List.map_cons, List.nodup_cons] at hN
    by_cases hid : h.id = n.id
    · have hhn : h = n := by
        rcases List.mem_cons.mp hn with rfl | hmem
        · rfl
        · exact absurd (hid ▸ (List.mem_map_of_mem GNode.id hmem)) hN.1
      rw [List.find?_cons_of_pos _ (by simp [hid]), hhn]
    · have hmem : n ∈ rest := by
        rcases List.mem_cons.mp hn with rfl | hmem
        · exact absurd rfl hid
        · exact hmem
      rw [List.find?_cons_of_neg _ (by simp [hid])]
      exact ih hN.2 hmem

theorem buildMap_lookup_self {α : Type} (f : GNode → α) (ns : List GNode)
    (hN : (ns.map GNode.id).Nodup) (n : GNode) (hn : n ∈ ns) :
    mapLookup (buildMap f ns) n.id = some (f n) := by
  have hrev : (ns.reverse.map GNode.id).Nodup := by
    rw [List.map_reverse]
    exact List.nodup_reverse.mpr hN
  have := buildMap_go_lookup f ns [] n.id
  rw [buildMap, this, find?_id_of_nodup ns.reverse hrev n (List.mem_reverse.mpr hn)]

theorem buildMap_lookup_some {α : Type} (f : GNode → α) (ns : List GNode) (x : Str)
    (v : α) (h : mapLookup (buildMap f ns) x = some v) :
    ∃ n, n ∈ ns ∧ n.id = x ∧ v = f n := by
  rw [buildMap, buildMap_go_lookup f ns [] x] at h
  cases hf : ns.reverse.find? (fun n => decide (n.id = x)) with
  | none => rw [hf] at h; cases h
  | some m =>
    rw [hf] at h
    have hm : m ∈ ns := List.mem_reverse.mp (List.mem_of_find?_eq_some hf)
    have hid : m.id = x := by
      have := List.find?_some hf
      simpa using this
    exact ⟨m, hm, hid, (Option.some.injEq _ _ ▸ h).symm⟩

/- Highlight state machine: opacity computation of handleNodeHover
   (src/main.js lines 402 to 459) and handleNodeClick (lines 489 to 546). -/

/-- Embedding of Set.prototype.add on a set of strings. -/
def setAdd (s : List Str) (x : Str) : List Str := if x ∈ s then s else s ++ [x]

/-- Embedding of the connectedIds computation (src/main.js lines 409 to
    415 and 500 to 506): the focal id plus the other endpoint of every
    link touching the focal node. -/
def connectedIds (d : GNode) (links : List RawLink) : List Str :=
  links.foldl
    (fun acc l =>
      let acc1 := if l.source = d.id then setAdd acc l.target else acc
      if l.target = d.id then setAdd acc1 l.source else acc1)
    [d.id]

/-- The id x is an endpoint of some link whose other endpoint is the focal
    id (connection by exactly one link). -/
def adjacentId (dId x : Str) (links : List RawLink) : Prop :=
  ∃ l ∈ links, (l.source = dId ∧ l.target = x) ∨ (l.target = dId ∧ l.source = x)

instance (dId x : Str) (links : List RawLink) : Decidable (adjacentId dId x links) := by
  unfold adjacentId
  infer_instance

theorem mem_setAdd (s : List Str) (x y : Str) : y ∈ setAdd s x ↔ y = x ∨ y ∈ s := by
  unfold setAdd
  by_cases h : x ∈ s
  · simp only [if_pos h]
    constructor
    · exact fun hy => Or.inr hy
    · rintro (rfl | hy)
      · exact h
      · exact hy
  · simp [if_neg h, List.mem_append, or_comm]

theorem mem_connectedIds (d : GNode) (links : List RawLink) (x : Str) :
    x ∈ connectedIds d links ↔ x = d.id ∨ adjacentId d.id x links := by
  have go : ∀ (ls : List RawLink) (acc : List Str),
      x ∈ ls.foldl
          (fun acc l =>
            let acc1 := if l.source = d.id then setAdd acc l.target else acc
            if l.target = d.id then setAdd acc1 l.source else acc1)
          acc
        ↔ x ∈ acc ∨ adjacentId d.id x ls := by
    intro ls
    induction ls with
    | nil => intro acc; simp [adjacentId]
    | cons l rest ih =>
      intro acc
      rw [List.foldl_cons, ih]
      have hstep : x ∈ (let acc1 := if l.source = d.id then setAdd acc l.target else acc;
            if l.target = d.id then setAdd acc1 l.source else acc1)
          ↔ x ∈ acc ∨ ((l.source = d.id ∧ l.target = x) ∨ (l.target = d.id ∧ l.source = x)) := by
        by_cases hs : l.source = d.id <;> by_cases ht : l.target = d.id <;>
          simp [hs, ht, mem_setAdd] <;> tauto
      rw [hstep]
      have hcons : adjacentId d.id x (l :: rest)
          ↔ ((l.source = d.id ∧ l.target = x) ∨ (l.target = d.id ∧ l.source = x))
            ∨ adjacentId d.id x rest := by
        simp [adjacentId]
      rw [hcons]
      constructor
      · rintro ((h | h) | h) <;> tauto
      · rintro (h | (h | h))
        · tauto
        · refine Or.inl (Or.inr ?_)
          rcases h with ⟨h1, h2⟩ | ⟨h1, h2⟩ <;> tauto
        · tauto
  rw [connectedIds, go links [d.id]]
  simp [eq_comm]

/-- Per-node opacity of the hover highlight (src/main.js lines 418 to
    429): full for the focal node, its neighbors, and same-type nodes,
    dimmed 0.15 otherwise. -/
def hoverBaseOpacity (d : GNode) (links : List RawLink) (n : GNode) : ℚ :=
  if n.id = d.id then 1
  else if n.id ∈ connectedIds d links then 1
  else if n.type = d.type then 1
  else 0.15

/-- Per-node opacity of the click highlight (src/main.js lines 509 to
    518): as hover, but with no same-type clause. -/
def clickBaseOpacity (d : GNode) (links : List RawLink) (n : GNode) : ℚ :=
  if n.id = d.id then 1
  else if n.id ∈ connectedIds d links then 1
  else 0.15

/-- The nodeOpacityMap of handleNodeHover. -/
def hoverOpacityMap (ns : List GNode) (d : GNode) (links : List RawLink) :
    List (Str × ℚ) :=
  buildMap (hoverBaseOpacity d links) ns

/-- The nodeOpacityMap of handleNodeClick. -/
def clickOpacityMap (ns : List GNode) (d : GNode) (links : List RawLink) :
    List (Str × ℚ) :=
  buildMap (clickBaseOpacity d links) ns

/-- The ambient baseline multiplier isWriteDownMode ? 1 : 0.7 (src/main.js
    lines 452, 541 and 1293). -/
def ambientBaseline (wd : Bool) : ℚ := if wd then 1 else 0.7

/-- Map read with the JS falsy fallback: nodeOpacityMap.get(id) || 1. -/
def hoverEndpointBase (ns : List GNode) (links : List RawLink) (d : GNode) (x : Str) : ℚ :=
  jsOrQ (mapLookup (hoverOpacityMap ns d links) x) 1

def clickEndpointBase (ns : List GNode) (links : List RawLink) (d : GNode) (x : Str) : ℚ :=
  jsOrQ (mapLookup (clickOpacityMap ns d links) x) 1

/-- Rendered node opacity during hover highlight (src/main.js lines 450 to
    454): map value times the ambient baseline. -/
def hoverNodeOpacity (ns : List GNode) (links : List RawLink) (d : GNode)
    (wd : Bool) (n : GNode) : ℚ :=
  hoverEndpointBase ns links d n.id * ambientBaseline wd

/-- Rendered node opacity during click highlight (src/main.js lines 539 to
    543). -/
def clickNodeOpacity (ns : List GNode) (links : List RawLink) (d : GNode)
    (wd : Bool) (n : GNode) : ℚ :=
  clickEndpointBase ns links d n.id * ambientBaseline wd

/-- Does the link touch the focal node (src/main.js lines 441, 530). -/
def touchesFocal (d : GNode) (l : RawLink) : Bool :=
  l.source == d.id || l.target == d.id

/-- Link stroke-opacity during hover highlight (src/main.js lines 438 to
    448): 1 if the link touches the focal node, else the minimum of the
    endpoint map values (with the falsy || 1 fallback). -/
def hoverLinkOpacity (ns : List GNode) (links : List RawLink) (d : GNode)
    (l : RawLink) : ℚ :=
  if touchesFocal d l then 1
  else min (hoverEndpointBase ns links d l.source) (hoverEndpointBase ns links d l.target)

/-- Link stroke-opacity during click highlight (src/main.js lines 527 to
    537). -/
def clickLinkOpacity (ns : List GNode) (links : List RawLink) (d : GNode)
    (l : RawLink) : ℚ :=
  if touchesFocal d l then 1
  else min (clickEndpointBase ns links d l.source) (clickEndpointBase ns links d l.target)

/- Filter compositor: applyFilters (src/main.js lines 1270 to 1306). -/

/-- Per-node filter opacity of applyFilters (src/main.js lines 1274 to
    1291), with the exact branch structure of the source: the search
    clause sits behind an else-if on the emptiness of the selected order
    tags, so it is only consulted when no order tag is selected. -/
def filterBaseOpacity (sTypes sTags : List Str) (query : Str) (n : GNode) : ℚ :=
  if !sTypes.isEmpty && !sTypes.contains n.type then 0.15
  else if !sTags.isEmpty then
    (if !(!n.orderTag.isEmpty && sTags.contains n.orderTag) then 0.15 else 1)
  else if !query.isEmpty && !strIncludes (jsToLower n.name) (jsToLower query) then 0.15
  else 1

/-- The nodeOpacityMap of applyFilters. -/
def filterOpacityMap (ns : List GNode) (sTypes sTags : List Str) (query : Str) :
    List (Str × ℚ) :=
  buildMap (filterBaseOpacity sTypes sTags query) ns

/-- Filter map read with the JS falsy fallback get(id) || 1. -/
def filterEndpointBase (ns : List GNode) (sTypes sTags : List Str) (query : Str)
    (x : Str) : ℚ :=
  jsOrQ (mapLookup (filterOpacityMap ns sTypes sTags query) x) 1

/-- Rendered node opacity under filters (src/main.js lines 1293 to 1297). -/
def filterNodeOpacity (ns : List GNode) (sTypes sTags : List Str) (query : Str)
    (wd : Bool) (n : GNode) : ℚ :=
  filterEndpointBase ns sTypes sTags query n.id * ambientBaseline wd

/-- Link stroke-opacity under filters (src/main.js lines 1299 to 1305):
    the minimum of the endpoint map values times 0.6. -/
def filterLinkOpacity (ns : List GNode) (sTypes sTags : List Str) (query : Str)
    (l : RawLink) : ℚ :=
  min (filterEndpointBase ns sTypes sTags query l.source)
      (filterEndpointBase ns sTypes sTags query l.target) * 0.6

/-- Filter chain exactly as claim C5 words it: a first-match-wins chain in
    which the search clause is reached whenever neither the type clause
    nor the tag clause fired. -/
def filterChainSpec (sTypes sTags : List Str) (query : Str) (n : GNode) : ℚ :=
  if !sTypes.isEmpty && !sTypes.contains n.type then 0.15
  else if !sTags.isEmpty && !(!n.orderTag.isEmpty && sTags.contains n.orderTag) then 0.15
  else if !query.isEmpty && !strIncludes (jsToLower n.name) (jsToLower query) then 0.15
  else 1

/-- Amended filter chain: as claim C5, except that when any order tag is
    selected the chain ends at the tag clause, so a node with a matching
    tag receives the baseline without being tested against the search
    query. -/
def filterChainAmended (sTypes sTags : List Str) (query : Str) (n : GNode) : ℚ :=
  if !sTypes.isEmpty && !sTypes.contains n.type then 0.15
  else if !sTags.isEmpty then
    (if !n.orderTag.isEmpty && sTags.contains n.orderTag then 1 else 0.15)
  else if !query.isEmpty && !strIncludes (jsToLower n.name) (jsToLower query) then 0.15
  else 1

theorem filterBase_eq_amended (sTypes sTags : List Str) (query : Str) (n : GNode) :
    filterBaseOpacity sTypes sTags query n = filterChainAmended sTypes sTags query n := by
  unfold filterBaseOpacity filterChainAmended
  cases h : (!n.orderTag.isEmpty && sTags.contains n.orderTag) <;> simp [h]

/- Value lemmas: every per-node opacity is the dim constant 3/20 or 1. -/

theorem hoverBase_cases (d : GNode) (links : List RawLink) (n : GNode) :
    hoverBaseOpacity d links n = 3/20 ∨ hoverBaseOpacity d links n = 1 := by
  unfold hoverBaseOpacity
  split_ifs <;> norm_num

theorem clickBase_cases (d : GNode) (links : List RawLink) (n : GNode) :
    clickBaseOpacity d links n = 3/20 ∨ clickBaseOpacity d links n = 1 := by
  unfold clickBaseOpacity
  split_ifs <;> norm_num

theorem filterBase_cases (sTypes sTags : List Str) (query : Str) (n : GNode) :
    filterBaseOpacity sTypes sTags query n = 3/20
      ∨ filterBaseOpacity sTypes sTags query n = 1 := by
  unfold filterBaseOpacity
  split_ifs <;> norm_num

theorem ambientBaseline_cases (wd : Bool) :
    ambientBaseline wd = 7/10 ∨ ambientBaseline wd = 1 := by
  cases wd <;> norm_num [ambientBaseline]

theorem buildMapVal_cases (f : GNode → ℚ) (hf : ∀ n, f n = 3/20 ∨ f n = 1)
    (ns : List GNode) (x : Str) :
    jsOrQ (mapLookup (buildMap f ns) x) 1 = 3/20
      ∨ jsOrQ (mapLookup (buildMap f ns) x) 1 = 1 := by
  cases h : mapLookup (buildMap f ns) x with
  | none => right; rfl
  | some v =>
    obtain ⟨n, _, _, rfl⟩ := buildMap_lookup_some f ns x v h
    rcases hf n with hv | hv
    · left; rw [hv]; norm_num [jsOrQ]
    · right; rw [hv]; norm_num [jsOrQ]

theorem hoverEndpointBase_focal (ns : List GNode) (links : List RawLink) (d : GNode) :
    hoverEndpointBase ns links d d.id = 1 := by
  unfold hoverEndpointBase hoverOpacityMap
  cases h : mapLookup (buildMap (hoverBaseOpacity d links) ns) d.id with
  | none => rfl
  | some v =>
    obtain ⟨n, _, hid, rfl⟩ := buildMap_lookup_some _ ns d.id v h
    unfold hoverBaseOpacity
    rw [if_pos hid]
    norm_num [jsOrQ]

theorem clickEndpointBase_focal (ns : List GNode) (links : List RawLink) (d : GNode) :
    clickEndpointBase ns links d d.id = 1 := by
  unfold clickEndpointBase clickOpacityMap
  cases h : mapLookup (buildMap (clickBaseOpacity d links) ns) d.id with
  | none => rfl
  | some v =>
    obtain ⟨n, _, hid, rfl⟩ := buildMap_lookup_some _ ns d.id v h
    unfold clickBaseOpacity
    rw [if_pos hid]
    norm_num [jsOrQ]

theorem hoverBase_iff (d : GNode) (links : List RawLink) (n : GNode) :
    hoverBaseOpacity d links n =
      if n.id = d.id ∨ adjacentId d.id n.id links ∨ n.type = d.type then 1 else 0.15 := by
  unfold hoverBaseOpacity
  by_cases e1 : n.id = d.id
  · simp [e1]
  · by_cases e2 : n.id ∈ connectedIds d links
    · have hadj : adjacentId d.id n.id links := by
        rcases (mem_connectedIds d links n.id).mp e2 with h | h
        · exact absurd h e1
        · exact h
      simp [e1, e2, hadj]
    · have hnadj : ¬adjacentId d.id n.id links := fun h =>
        e2 ((mem_connectedIds d links n.id).mpr (Or.inr h))
      by_cases e3 : n.type = d.type <;> simp [e1, e2, e3, hnadj]

theorem clickBase_iff (d : GNode) (links : List RawLink) (n : GNode) :
    clickBaseOpacity d links n =
      if n.id = d.id ∨ adjacentId d.id n.id links then 1 else 0.15 := by
  unfold clickBaseOpacity
  by_cases e1 : n.id = d.id
  · simp [e1]
  · by_cases e2 : n.id ∈ connectedIds d links
    · have hadj : adjacentId d.id n.id links := by
        rcases (mem_connectedIds d links n.id).mp e2 with h | h
        · exact absurd h e1
        · exact h
      simp [e1, e2, hadj]
    · have hnadj : ¬adjacentId d.id n.id links := fun h =>
        e2 ((mem_connectedIds d links n.id).mpr (Or.inr h))
      simp [e1, e2, hnadj]

theorem jsOrQ_some_of_ne (v : ℚ) (d : ℚ) (h : v ≠ 0) : jsOrQ (some v) d = v := by
  simp [jsOrQ, h]

/-- Claim C4 (confirmed): with a focal node d active, the per-node
    highlight opacity is 1 exactly when the node is d, is connected to d
    by one link, or (hover only, not click) shares the type of d, and
    0.15 otherwise; the rendered value is this base value times the
    full-opacity baseline, which is 1.0 under writeDown mode and the
    ambient default 0.7 otherwise. -/
theorem C4_highlight_rule (ns : List GNode) (links : List RawLink) (d : GNode)
    (wd : Bool) (n : GNode)
    (hN : (ns.map GNode.id).Nodup) (hn : n ∈ ns) :
    hoverNodeOpacity ns links d wd n =
        (if n.id = d.id ∨ adjacentId d.id n.id links ∨ n.type = d.type then 1 else 0.15)
          * ambientBaseline wd
      ∧ clickNodeOpacity ns links d wd n =
        (if n.id = d.id ∨ adjacentId d.id n.id links then 1 else 0.15) * ambientBaseline wd
      ∧ ambientBaseline wd = (if wd then 1 else 0.7) := by
  have hne : hoverBaseOpacity d links n ≠ 0 := by
    rcases hoverBase_cases d links n with h | h <;> rw [h] <;> norm_num
  have cne : clickBaseOpacity d links n ≠ 0 := by
    rcases clickBase_cases d links n with h | h <;> rw [h] <;> norm_num
  refine ⟨?_, ?_, rfl⟩
  · unfold hoverNodeOpacity hoverEndpointBase hoverOpacityMap
    rw [buildMap_lookup_self (hoverBaseOpacity d links) ns hN n hn,
      jsOrQ_some_of_ne _ _ hne, hoverBase_iff]
  · unfold clickNodeOpacity clickEndpointBase clickOpacityMap
    rw [buildMap_lookup_self (clickBaseOpacity d links) ns hN n hn,
      jsOrQ_some_of_ne _ _ cne, clickBase_iff]

def c4FocalNode : GNode :=
  ⟨"a".toList, "a".toList, "t".toList, [], [], [], "#EC0376".toList, "#262123".toList,
    ["b".toList]⟩

def c4OtherNode : GNode :=
  ⟨"b".toList, "b".toList, "u".toList, [], [], [], "#EC0376".toList, "#262123".toList, []⟩

def c4Link : RawLink := ⟨"a".toList, "b".toList⟩

/-- Witness for C4 at a concrete graph: two nodes of different types
    joined by one link, hover focused on the first. -/
theorem C4_highlight_rule_witness :
    hoverNodeOpacity [c4FocalNode, c4OtherNode] [c4Link] c4FocalNode false c4OtherNode =
      (if c4OtherNode.id = c4FocalNode.id
          ∨ adjacentId c4FocalNode.id c4OtherNode.id [c4Link]
          ∨ c4OtherNode.type = c4FocalNode.type then 1 else 0.15)
        * ambientBaseline false :=
  (C4_highlight_rule [c4FocalNode, c4OtherNode] [c4Link] c4FocalNode false c4OtherNode
    (by decide) (by decide)).1

/-- Claim C5 (corrected), counterexample: a node whose order tag matches
    the selected tag set but whose name does not contain the non-empty
    search query. The claimed chain dims it to 0.15, while applyFilters
    leaves it at 1 before the baseline (rendered 1 times 0.7 = 0.7),
    because the search clause is skipped whenever any order tag is
    selected. -/
def c5Node : GNode :=
  ⟨"a".toList, "abc".toList, "t".toList, [], [], "x".toList, "#EC0376".toList,
    "#262123".toList, []⟩

theorem C5_filter_precedence_counterexample :
    filterChainSpec [] ["x".toList] ("zzz".toList) c5Node = 0.15
      ∧ filterBaseOpacity [] ["x".toList] ("zzz".toList) c5Node = 1
      ∧ filterNodeOpacity [c5Node] [] ["x".toList] ("zzz".toList) false c5Node
          = 1 * ambientBaseline false
      ∧ (1 : ℚ) * ambientBaseline false ≠ 0.15 * ambientBaseline false := by
  refine ⟨rfl, rfl, ?_, by norm_num [ambientBaseline]⟩
  unfold filterNodeOpacity filterEndpointBase filterOpacityMap
  rw [buildMap_lookup_self (filterBaseOpacity [] ["x".toList] ("zzz".toList)) [c5Node]
      (by decide) c5Node (by decide)]
  rw [show filterBaseOpacity [] ["x".toList] ("zzz".toList) c5Node = 1 from rfl]
  rw [jsOrQ_some_of_ne _ _ (by norm_num)]

/-- Claim C5 (corrected), amended: first match wins with the guard the
    source actually has: (1) any type selected and the type of the node
    not among them dims it; (2) else, if any order tag is selected, the
    node is dimmed exactly when its tag is absent or not among them, and
    the search clause is not consulted; (3) else a non-empty query that
    the name does not case-insensitively contain dims it; (4) else the
    node gets the writeDown-adjusted ambient baseline. In particular a
    node excluded by the type filter stays dimmed even when it matches
    the search query under an empty tag filter. -/
theorem C5_filter_precedence_amended (ns : List GNode) (sTypes sTags : List Str)
    (query : Str) (wd : Bool) (n : GNode)
    (hN : (ns.map GNode.id).Nodup) (hn : n ∈ ns) :
    filterNodeOpacity ns sTypes sTags query wd n =
        filterChainAmended sTypes sTags query n * ambientBaseline wd
      ∧ (sTypes ≠ [] → sTypes.contains n.type = false →
          filterNodeOpacity ns sTypes sTags query wd n = 0.15 * ambientBaseline wd) := by
  have fne : filterBaseOpacity sTypes sTags query n ≠ 0 := by
    rcases filterBase_cases sTypes sTags query n with h | h <;> rw [h] <;> norm_num
  have hmain : filterNodeOpacity ns sTypes sTags query wd n =
      filterBaseOpacity sTypes sTags query n * ambientBaseline wd := by
    unfold filterNodeOpacity filterEndpointBase filterOpacityMap
    rw [buildMap_lookup_self (filterBaseOpacity sTypes sTags query) ns hN n hn,
      jsOrQ_some_of_ne _ _ fne]
  refine ⟨by rw [hmain, filterBase_eq_amended], ?_⟩
  intro htypes hcont
  rw [hmain]
  have hbase : filterBaseOpacity sTypes sTags query n = 0.15 := by
    unfold filterBaseOpacity
    have hne : sTypes.isEmpty = false := by
      cases sTypes with
      | nil => exact absurd rfl htypes
      | cons a l => rfl
    rw [if_pos (by rw [hne, hcont]; rfl)]
  rw [hbase]

/-- Witness for C5 at a concrete node: excluded by the type filter, with
    an empty tag filter and a search query its name contains. -/
def c5bNode : GNode :=
  ⟨"a".toList, "abc".toList, "t".toList, [], [], [], "#EC0376".toList,
    "#262123".toList, []⟩

theorem C5_filter_precedence_witness :
    filterNodeOpacity [c5bNode] ["u".toList] [] ("abc".toList) false c5bNode =
      0.15 * ambientBaseline false :=
  (C5_filter_precedence_amended [c5bNode] ["u".toList] [] ("abc".toList) false c5bNode
    (by decide) (by decide)).2 (by decide) (by decide)

def c3FocalNode : GNode :=
  ⟨"a".toList, "a".toList, "t1".toList, [], [], [], "#EC0376".toList, "#262123".toList, []⟩

def c3OtherNode : GNode :=
  ⟨"b".toList, "b".toList, "t2".toList, [], [], [], "#EC0376".toList, "#262123".toList, []⟩

/-- Claim C3 (corrected), counterexample: with writeDown off, a hovered
    graph dims an unconnected different-type node to 0.15 times the 0.7
    ambient baseline, which is 0.105 and lies below the claimed lower
    bound 0.15. -/
theorem C3_opacity_bounds_counterexample :
    hoverNodeOpacity [c3FocalNode, c3OtherNode] [] c3FocalNode false c3OtherNode
        = 0.15 * ambientBaseline false
      ∧ ¬((0.15 : ℚ) ≤ 0.15 * ambientBaseline false) := by
  constructor
  · unfold hoverNodeOpacity hoverEndpointBase hoverOpacityMap
    rw [buildMap_lookup_self (hoverBaseOpacity c3FocalNode []) [c3FocalNode, c3OtherNode]
        (by decide) c3OtherNode (by decide)]
    rw [show hoverBaseOpacity c3FocalNode [] c3OtherNode = 0.15 from rfl]
    rw [jsOrQ_some_of_ne _ _ (by norm_num)]
  · norm_num [ambientBaseline]

/-- Claim C3 (corrected), amended: rendered node opacity always lies in
    [0.105, 1] (a base opacity in [0.15, 1] scaled by the ambient baseline
    0.7 or 1); link stroke-opacity always lies in [0, 1] and never exceeds
    the maximum of the pre-baseline opacities of its two endpoints; a link
    that does not touch the focal node gets exactly the minimum of its
    endpoint pre-baseline opacities in the hover and click computations,
    and 0.6 times that minimum in the filter computation. -/
theorem C3_opacity_bounds_amended (ns : List GNode) (links : List RawLink) (d : GNode)
    (wd : Bool) (n : GNode) (l : RawLink) (sTypes sTags : List Str) (query : Str) :
    (21/200 ≤ hoverNodeOpacity ns links d wd n ∧ hoverNodeOpacity ns links d wd n ≤ 1)
      ∧ (21/200 ≤ clickNodeOpacity ns links d wd n ∧ clickNodeOpacity ns links d wd n ≤ 1)
      ∧ (21/200 ≤ filterNodeOpacity ns sTypes sTags query wd n
          ∧ filterNodeOpacity ns sTypes sTags query wd n ≤ 1)
      ∧ (0 ≤ hoverLinkOpacity ns links d l ∧ hoverLinkOpacity ns links d l ≤ 1)
      ∧ hoverLinkOpacity ns links d l
          ≤ max (hoverEndpointBase ns links d l.source) (hoverEndpointBase ns links d l.target)
      ∧ (touchesFocal d l = false →
          hoverLinkOpacity ns links d l
            = min (hoverEndpointBase ns links d l.source) (hoverEndpointBase ns links d l.target))
      ∧ (0 ≤ clickLinkOpacity ns links d l ∧ clickLinkOpacity ns links d l ≤ 1)
      ∧ clickLinkOpacity ns links d l
          ≤ max (clickEndpointBase ns links d l.source) (clickEndpointBase ns links d l.target)
      ∧ (touchesFocal d l = false →
          clickLinkOpacity ns links d l
            = min (clickEndpointBase ns links d l.source) (clickEndpointBase ns links d l.target))
      ∧ (0 ≤ filterLinkOpacity ns sTypes sTags query l
          ∧ filterLinkOpacity ns sTypes sTags query l ≤ 1)
      ∧ filterLinkOpacity ns sTypes sTags query l
          ≤ max (filterEndpointBase ns sTypes sTags query l.source)
              (filterEndpointBase ns sTypes sTags query l.target)
      ∧ filterLinkOpacity ns sTypes sTags query l
          = min (filterEndpointBase ns sTypes sTags query l.source)
              (filterEndpointBase ns sTypes sTags query l.target) * (3/5) := by
  have hEB : ∀ x, hoverEndpointBase ns links d x = 3/20 ∨ hoverEndpointBase ns links d x = 1 := by
    intro x
    unfold hoverEndpointBase hoverOpacityMap
    exact buildMapVal_cases _ (hoverBase_cases d links) ns x
  have cEB : ∀ x, clickEndpointBase ns links d x = 3/20 ∨ clickEndpointBase ns links d x = 1 := by
    intro x
    unfold clickEndpointBase clickOpacityMap
    exact buildMapVal_cases _ (clickBase_cases d links) ns x
  have fEB : ∀ x, filterEndpointBase ns sTypes sTags query x = 3/20
      ∨ filterEndpointBase ns sTypes sTags query x = 1 := by
    intro x
    unfold filterEndpointBase filterOpacityMap
    exact buildMapVal_cases _ (filterBase_cases sTypes sTags query) ns x
  have hAmb := ambientBaseline_cases wd
  have nodeBound : ∀ b c : ℚ, (b = 3/20 ∨ b = 1) → (c = 7/10 ∨ c = 1) →
      21/200 ≤ b * c ∧ b * c ≤ 1 := by
    rintro b c (rfl | rfl) (rfl | rfl) <;> norm_num
  have hLinkFacts : ∀ b c : ℚ, (b = 3/20 ∨ b = 1) → (c = 3/20 ∨ c = 1) →
      0 ≤ min b c ∧ min b c ≤ 1 ∧ min b c ≤ max b c := by
    rintro b c (rfl | rfl) (rfl | rfl) <;> norm_num [min_def, max_def]
  have fLinkFacts : ∀ b c : ℚ, (b = 3/20 ∨ b = 1) → (c = 3/20 ∨ c = 1) →
      0 ≤ min b c * 0.6 ∧ min b c * 0.6 ≤ 1 ∧ min b c * 0.6 ≤ max b c
        ∧ min b c * 0.6 = min b c * (3/5) := by
    rintro b c (rfl | rfl) (rfl | rfl) <;> norm_num [min_def, max_def]
  refine ⟨?_, ?_, ?_, ?_, ?_, ?_, ?_, ?_, ?_, ?_, ?_, ?_⟩
  · exact nodeBound _ _ (hEB n.id) hAmb
  · exact nodeBound _ _ (cEB n.id) hAmb
  · exact nodeBound _ _ (fEB n.id) hAmb
  · cases ht : touchesFocal d l
    · have := hLinkFacts _ _ (hEB l.source) (hEB l.target)
      simp only [hoverLinkOpacity, ht, Bool.false_eq_true, if_false]
      exact ⟨this.1, this.2.1⟩
    · simp only [hoverLinkOpacity, ht, if_true]
      norm_num
  · cases ht : touchesFocal d l
    · have := hLinkFacts _ _ (hEB l.source) (hEB l.target)
      simp only [hoverLinkOpacity, ht, Bool.false_eq_true, if_false]
      exact this.2.2
    · have hor : l.source = d.id ∨ l.target = d.id := by
        simpa [touchesFocal] using ht
      have h1le : (1 : ℚ)
          ≤ max (hoverEndpointBase ns links d l.source) (hoverEndpointBase ns links d l.target) := by
        rcases hor with hs | hs
        · exact le_max_of_le_left (le_of_eq (by rw [hs, hoverEndpointBase_focal]))
        · exact le_max_of_le_right (le_of_eq (by rw [hs, hoverEndpointBase_focal]))
      simpa [hoverLinkOpacity, ht] using h1le
  · intro h
    simp [hoverLinkOpacity, h]
  · cases ht : touchesFocal d l
    · have := hLinkFacts _ _ (cEB l.source) (cEB l.target)
      simp only [clickLinkOpacity, ht, Bool.false_eq_true, if_false]
      exact ⟨this.1, this.2.1⟩
    · simp only [clickLinkOpacity, ht, if_true]
      norm_num
  · cases ht : touchesFocal d l
    · have := hLinkFacts _ _ (cEB l.source) (cEB l.target)
      simp only [clickLinkOpacity, ht, Bool.false_eq_true, if_false]
      exact this.2.2
    · have hor : l.source = d.id ∨ l.target = d.id := by
        simpa [touchesFocal] using ht
      have h1le : (1 : ℚ)
          ≤ max (clickEndpointBase ns links d l.source) (clickEndpointBase ns links d l.target) := by
        rcases hor with hs | hs
        · exact le_max_of_le_left (le_of_eq (by rw [hs, clickEndpointBase_focal]))
        · exact le_max_of_le_right (le_of_eq (by rw [hs, clickEndpointBase_focal]))
      simpa [clickLinkOpacity, ht] using h1le
  · intro h
    simp [clickLinkOpacity, h]
  · have := fLinkFacts _ _ (fEB l.source) (fEB l.target)
    unfold filterLinkOpacity
    exact ⟨this.1, this.2.1⟩
  · have := fLinkFacts _ _ (fEB l.source) (fEB l.target)
    unfold filterLinkOpacity
    exact this.2.2.1
  · have := fLinkFacts _ _ (fEB l.source) (fEB l.target)
    unfold filterLinkOpacity
    exact this.2.2.2

def c3Link : RawLink := ⟨"b".toList, "c".toList⟩

/-- Witness for C3: the amended statement applied at a concrete graph and
    a link that does not touch the focal node. -/
theorem C3_opacity_bounds_witness :
    hoverLinkOpacity [c3FocalNode, c3OtherNode] [] c3FocalNode c3Link
        = min (hoverEndpointBase [c3FocalNode, c3OtherNode] [] c3FocalNode c3Link.source)
            (hoverEndpointBase [c3FocalNode, c3OtherNode] [] c3FocalNode c3Link.target)
      ∧ clickLinkOpacity [c3FocalNode, c3OtherNode] [] c3FocalNode c3Link
        = min (clickEndpointBase [c3FocalNode, c3OtherNode] [] c3FocalNode c3Link.source)
            (clickEndpointBase [c3FocalNode, c3OtherNode] [] c3FocalNode c3Link.target) :=
  ⟨(C3_opacity_bounds_amended [c3FocalNode, c3OtherNode] [] c3FocalNode false c3OtherNode
      c3Link [] [] []).2.2.2.2.2.1 (by decide),
   (C3_opacity_bounds_amended [c3FocalNode, c3OtherNode] [] c3FocalNode false c3OtherNode
      c3Link [] [] []).2.2.2.2.2.2.2.2.1 (by decide)⟩

/- Lemmas about the two color-stashing iterations (prettyVisit and
   reversedVisit) used by claims C2, C8 and C10. -/

theorem prettyVisit_nodes (ns : List GNode) (st : List (Str × Str)) :
    (prettyVisit ns st).1 = ns.map (fun n => { n with color := n.prettyColor }) := by
  induction ns generalizing st with
  | nil => rfl
  | cons n rest ih => simp [prettyVisit, ih]

/-- The per-node recoloring reversedList applies: done-tagged nodes turn
    the completion green, others are untouched. -/
def doneRecolor (n : GNode) : GNode :=
  if hasDoneTag n then { n with color := "#03BA6D".toList } else n

theorem reversedVisit_nodes (ns : List GNode) (st : List (Str × Str)) :
    (reversedVisit ns st).1 = ns.map doneRecolor := by
  induction ns generalizing st with
  | nil => rfl
  | cons n rest ih =>
    cases h : hasDoneTag n <;> simp [reversedVisit, doneRecolor, h, ih]

theorem prettyVisit_stash_lookup (ns : List GNode) (st : List (Str × Str)) (x : Str) :
    mapLookup (prettyVisit ns st).2 x =
      match mapLookup st x with
      | some c => some c
      | none =>
        match ns.find? (fun n => decide (n.id = x)) with
        | some n => some n.color
        | none => none := by
  induction ns generalizing st with
  | nil => cases h : mapLookup st x <;> simp [prettyVisit, h]
  | cons n rest ih =>
    have hstep : (prettyVisit (n :: rest) st).2
        = (prettyVisit rest (if (mapLookup st n.id).isSome then st
            else mapSet st n.id n.color)).2 := rfl
    rw [hstep, ih]
    by_cases hx : n.id = x
    · cases hs : mapLookup st x with
      | some c =>
        have hs2 : (mapLookup st n.id).isSome = true := by rw [hx, hs]; rfl
        rw [if_pos hs2, hs]
      | none =>
        have hs2 : (mapLookup st n.id).isSome = false := by rw [hx, hs]; rfl
        rw [if_neg (by simp [hs2]), mapLookup_mapSet, if_pos hx,
          List.find?_cons_of_pos _ (by simp [hx])]
    · have hsame : mapLookup (if (mapLookup st n.id).isSome then st
          else mapSet st n.id n.color) x = mapLookup st x := by
        by_cases hs : (mapLookup st n.id).isSome = true
        · rw [if_pos hs]
        · rw [if_neg hs, mapLookup_mapSet, if_neg hx]
      rw [hsame]
      cases hs : mapLookup st x with
      | some c => rfl
      | none => rw [List.find?_cons_of_neg _ (by simp [hx])]

theorem reversedVisit_stash_lookup (ns : List GNode) (st : List (Str × Str)) (x : Str) :
    mapLookup (reversedVisit ns st).2 x =
      match mapLookup st x with
      | some c => some c
      | none =>
        match ns.find? (fun n => decide (n.id = x) && hasDoneTag n) with
        | some n => some n.color
        | none => none := by
  induction ns generalizing st with
  | nil => cases h : mapLookup st x <;> simp [reversedVisit, h]
  | cons n rest ih =>
    cases hd : hasDoneTag n with
    | false =>
      have hstep : (reversedVisit (n :: rest) st).2 = (reversedVisit rest st).2 := by
        simp [reversedVisit, hd]
      rw [hstep, ih]
      cases hs : mapLookup st x with
      | some c => rfl
      | none => rw [List.find?_cons_of_neg _ (by simp [hd])]
    | true =>
      have hstep : (reversedVisit (n :: rest) st).2
          = (reversedVisit rest (if (mapLookup st n.id).isSome then st
              else mapSet st n.id n.color)).2 := by
        simp [reversedVisit, hd]
      rw [hstep, ih]
      by_cases hx : n.id = x
      · cases hs : mapLookup st x with
        | some c =>
          have hs2 : (mapLookup st n.id).isSome = true := by rw [hx, hs]; rfl
          rw [if_pos hs2, hs]
        | none =>
          have hs2 : (mapLookup st n.id).isSome = false := by rw [hx, hs]; rfl
          rw [if_neg (by simp [hs2]), mapLookup_mapSet, if_pos hx,
            List.find?_cons_of_pos _ (by simp [hx, hd])]
      · have hsame : mapLookup (if (mapLookup st n.id).isSome then st
            else mapSet st n.id n.color) x = mapLookup st x := by
          by_cases hs : (mapLookup st n.id).isSome = true
          · rw [if_pos hs]
          · rw [if_neg hs, mapLookup_mapSet, if_neg hx]
        rw [hsame]
        cases hs : mapLookup st x with
        | some c => rfl
        | none => rw [List.find?_cons_of_neg _ (by simp [hx])]

theorem prettyVisit_stash_stable (ns : List GNode) (st : List (Str × Str))
    (h : ∀ n ∈ ns, (mapLookup st n.id).isSome = true) :
    (prettyVisit ns st).2 = st := by
  induction ns generalizing st with
  | nil => rfl
  | cons n rest ih =>
    have hn := h n (List.mem_cons_self n rest)
    have hstep : (prettyVisit (n :: rest) st).2
        = (prettyVisit rest (if (mapLookup st n.id).isSome then st
            else mapSet st n.id n.color)).2 := rfl
    rw [hstep, if_pos hn]
    exact ih st (fun m hm => h m (List.mem_cons_of_mem n hm))

theorem prettyVisit_stash_covers (ns : List GNode) (st : List (Str × Str)) (x : Str)
    (hn : ∃ n ∈ ns, n.id = x) :
    (mapLookup (prettyVisit ns st).2 x).isSome = true := by
  rw [prettyVisit_stash_lookup]
  cases hs : mapLookup st x with
  | some c => rfl
  | none =>
    cases hf : ns.find? (fun m => decide (m.id = x)) with
    | some m => rfl
    | none =>
      rw [List.find?_eq_none] at hf
      obtain ⟨n, hmem, hid⟩ := hn
      have hfalse := hf n hmem
      simp [hid] at hfalse

/-- Claim C8 (confirmed): dispatching the switch-to-pretty-palette
    automation twice in a row produces exactly the state of dispatching it
    once — the same per-node color assignment and the same stored
    original-color map — from every prior state. -/
theorem C8_pretty_idempotent (s : EngineState) :
    prettyItUp (prettyItUp s) = prettyItUp s := by
  have hfst : (prettyItUp s).nodes
      = s.nodes.map (fun n => { n with color := n.prettyColor }) :=
    prettyVisit_nodes _ _
  have h2nodes : (prettyVisit (prettyItUp s).nodes (prettyItUp s).nodeOriginalColors).1
      = (prettyItUp s).nodes := by
    rw [prettyVisit_nodes, hfst, List.map_map]
    exact List.map_congr_left (fun a _ => rfl)
  have h2st : (prettyVisit (prettyItUp s).nodes (prettyItUp s).nodeOriginalColors).2
      = (prettyItUp s).nodeOriginalColors := by
    apply prettyVisit_stash_stable
    intro n hn
    rw [hfst] at hn
    obtain ⟨m, hm, rfl⟩ := List.mem_map.mp hn
    show (mapLookup (prettyVisit s.nodes s.nodeOriginalColors).2 _).isSome = true
    exact prettyVisit_stash_covers _ _ _ ⟨m, hm, rfl⟩
  calc prettyItUp (prettyItUp s)
      = { prettyItUp s with
          isPrettyMode := true
          nodes := (prettyVisit (prettyItUp s).nodes (prettyItUp s).nodeOriginalColors).1
          nodeOriginalColors :=
            (prettyVisit (prettyItUp s).nodes (prettyItUp s).nodeOriginalColors).2 } := rfl
    _ = prettyItUp s := by rw [h2nodes, h2st]; rfl

theorem ne_nil_isEmpty_false (c : Str) (h : c ≠ []) : c.isEmpty = false := by
  cases c with
  | nil => exact absurd rfl h
  | cons a t => rfl

theorem restoreColor_of_some (st : List (Str × Str)) (n : GNode) (c : Str)
    (h : mapLookup st n.id = some c) (hc : c ≠ []) :
    restoreColor st n = { n with color := c } := by
  have hce : c.isEmpty = false := ne_nil_isEmpty_false c hc
  unfold restoreColor
  rw [h]
  simp [hce]

theorem restoreColor_of_none (st : List (Str × Str)) (n : GNode)
    (h : mapLookup st n.id = none) : restoreColor st n = n := by
  unfold restoreColor
  rw [h]

theorem find?_id_and (ns : List GNode) (hN : (ns.map GNode.id).Nodup) (q : GNode → Bool)
    (n : GNode) (hn : n ∈ ns) :
    ns.find? (fun m => decide (m.id = n.id) && q m) = if q n then some n else none := by
  induction ns with
  | nil => cases hn
  | cons h rest ih =>
    simp only [List.map_cons, List.nodup_cons] at hN
    by_cases hid : h.id = n.id
    · have hhn : h = n := by
        rcases List.mem_cons.mp hn with rfl | hmem
        · rfl
        · exact absurd (hid ▸ (List.mem_map_of_mem GNode.id hmem)) hN.1
      subst hhn
      cases hq : q h with
      | true =>
        rw [List.find?_cons_of_pos _ (by simp [hq])]
        rfl
      | false =>
        rw [List.find?_cons_of_neg _ (by simp [hq])]
        have hrest : rest.find? (fun m => decide (m.id = h.id) && q m) = none := by
          rw [List.find?_eq_none]
          intro m hm
          have hne : m.id ≠ h.id := fun he => hN.1 (he ▸ List.mem_map_of_mem GNode.id hm)
          simp [hne]
        rw [hrest]
        rfl
    · have hmem : n ∈ rest := by
        rcases List.mem_cons.mp hn with rfl | hmem
        · exact absurd rfl hid
        · exact hmem
      rw [List.find?_cons_of_neg _ (by simp [hid])]
      exact ih hN.2 hmem

theorem rev_stash_of_empty (ns : List GNode) (hN : (ns.map GNode.id).Nodup)
    (n : GNode) (hn : n ∈ ns) :
    mapLookup (reversedVisit ns ([] : List (Str × Str))).2 n.id
      = if hasDoneTag n then some n.color else none := by
  rw [reversedVisit_stash_lookup]
  show (match ns.find? (fun m => decide (m.id = n.id) && hasDoneTag m) with
      | some m => some m.color
      | none => none) = _
  rw [find?_id_and ns hN hasDoneTag n hn]
  cases hq : hasDoneTag n <;> simp [hq]

theorem doneRecolor_id (n : GNode) : (doneRecolor n).id = n.id := by
  unfold doneRecolor
  split <;> rfl

def c2Node : GNode :=
  ⟨"a".toList, "a".toList, "t".toList, "done".toList, [], [], "red".toList, "blue".toList, []⟩

/-- Claim C2 (corrected), counterexample: when a palette switch precedes
    the recolor, the round trip restores the color stashed by the palette
    switch, not the pre-recolor color. Concretely: one node with tag done,
    dataset color red and pretty color blue; prettyItUp stashes red and
    paints blue, so its pre-recolor color is blue; reversedList then
    ordinaryList leave it red, not blue. -/
theorem C2_recolor_roundtrip_counterexample :
    ((prettyItUp (initState [c2Node])).nodes.map GNode.color) = ["blue".toList]
      ∧ ((ordinaryList (reversedList (prettyItUp (initState [c2Node])))).nodes.map GNode.color)
          = ["red".toList]
      ∧ ("red".toList : Str) ≠ "blue".toList := by
  exact ⟨rfl, rfl, by decide⟩

/-- Claim C2 (corrected), amended: from a state whose original-color
    stash is empty (no color-stashing automation has run before the
    recolor), with unique node ids and non-empty node colors, conditional
    recolor followed by restore-original-colors restores every node to
    exactly its pre-recolor record, including when the pretty palette
    switch runs between the two. -/
theorem C2_recolor_roundtrip_amended (s : EngineState)
    (hN : (s.nodes.map GNode.id).Nodup)
    (hst : s.nodeOriginalColors = [])
    (hc : ∀ n ∈ s.nodes, n.color ≠ []) :
    (ordinaryList (reversedList s)).nodes = s.nodes
      ∧ (ordinaryList (prettyItUp (reversedList s))).nodes = s.nodes := by
  have hrnodes : (reversedList s).nodes = s.nodes.map doneRecolor := by
    show (reversedVisit s.nodes s.nodeOriginalColors).1 = _
    exact reversedVisit_nodes _ _
  have hrst : (reversedList s).nodeOriginalColors = (reversedVisit s.nodes []).2 := by
    show (reversedVisit s.nodes s.nodeOriginalColors).2 = _
    rw [hst]
  have ha : (ordinaryList (reversedList s)).nodes = s.nodes := by
    show (reversedList s).nodes.map (restoreColor (reversedList s).nodeOriginalColors)
        = s.nodes
    rw [hrst, hrnodes, List.map_map]
    have hpt : ∀ n ∈ s.nodes,
        (restoreColor (reversedVisit s.nodes []).2 ∘ doneRecolor) n = n := by
      intro n hn
      show restoreColor (reversedVisit s.nodes []).2 (doneRecolor n) = n
      cases hq : hasDoneTag n with
      | false =>
        have hdr : doneRecolor n = n := by
          unfold doneRecolor
          rw [hq]
          rfl
        rw [hdr]
        apply restoreColor_of_none
        rw [rev_stash_of_empty s.nodes hN n hn, hq]
        rfl
      | true =>
        have hdr : doneRecolor n = { n with color := "#03BA6D".toList } := by
          unfold doneRecolor
          rw [hq]
          rfl
        have hlook : mapLookup (reversedVisit s.nodes []).2 (doneRecolor n).id
            = some n.color := by
          rw [doneRecolor_id, rev_stash_of_empty s.nodes hN n hn, hq]
          rfl
        rw [restoreColor_of_some _ _ _ hlook (hc n hn), hdr]
    rw [List.map_congr_left hpt, List.map_id']
  have hpnodes : (prettyItUp (reversedList s)).nodes
      = (reversedList s).nodes.map (fun n => { n with color := n.prettyColor }) := by
    show (prettyVisit (reversedList s).nodes (reversedList s).nodeOriginalColors).1 = _
    exact prettyVisit_nodes _ _
  have hids : (s.nodes.map doneRecolor).map GNode.id = s.nodes.map GNode.id := by
    rw [List.map_map]
    exact List.map_congr_left (fun a _ => doneRecolor_id a)
  have hN2 : ((s.nodes.map doneRecolor).map GNode.id).Nodup := by
    rw [hids]
    exact hN
  have hB : ∀ n ∈ s.nodes,
      mapLookup (prettyItUp (reversedList s)).nodeOriginalColors n.id = some n.color := by
    intro n hn
    show mapLookup (prettyVisit (reversedList s).nodes
        (reversedList s).nodeOriginalColors).2 n.id = some n.color
    rw [prettyVisit_stash_lookup, hrst, hrnodes, rev_stash_of_empty s.nodes hN n hn]
    cases hq : hasDoneTag n with
    | true => rfl
    | false =>
      show (match (s.nodes.map doneRecolor).find? (fun m => decide (m.id = n.id)) with
          | some m => some m.color
          | none => none) = some n.color
      have hdr : doneRecolor n = n := by
        unfold doneRecolor
        rw [hq]
        rfl
      have hfind := find?_id_of_nodup (s.nodes.map doneRecolor) hN2 (doneRecolor n)
        (List.mem_map_of_mem doneRecolor hn)
      rw [doneRecolor_id] at hfind
      rw [hfind, hdr]
  have hb : (ordinaryList (prettyItUp (reversedList s))).nodes = s.nodes := by
    show (prettyItUp (reversedList s)).nodes.map
        (restoreColor (prettyItUp (reversedList s)).nodeOriginalColors) = s.nodes
    rw [hpnodes, hrnodes, List.map_map, List.map_map]
    have hpt : ∀ n ∈ s.nodes,
        ((restoreColor (prettyItUp (reversedList s)).nodeOriginalColors ∘
          fun n => { n with color := n.prettyColor }) ∘ doneRecolor) n = n := by
      intro n hn
      show restoreColor (prettyItUp (reversedList s)).nodeOriginalColors
          { doneRecolor n with color := (doneRecolor n).prettyColor } = n
      have hlook : mapLookup (prettyItUp (reversedList s)).nodeOriginalColors
          ({ doneRecolor n with color := (doneRecolor n).prettyColor } : GNode).id
          = some n.color := by
        show mapLookup (prettyItUp (reversedList s)).nodeOriginalColors (doneRecolor n).id
            = some n.color
        rw [doneRecolor_id]
        exact hB n hn
      rw [restoreColor_of_some _ _ _ hlook (hc n hn)]
      cases hq : hasDoneTag n with
      | true =>
        have hdr : doneRecolor n = { n with color := "#03BA6D".toList } := by
          unfold doneRecolor
          rw [hq]
          rfl
        rw [hdr]
      | false =>
        have hdr : doneRecolor n = n := by
          unfold doneRecolor
          rw [hq]
          rfl
        rw [hdr]
    rw [List.map_congr_left hpt, List.map_id']
  exact ⟨ha, hb⟩

/-- Witness for C2: the amended round trip applied at a concrete two-node
    state with one done-tagged node. -/
def c2WitnessA : GNode :=
  ⟨"a".toList, "a".toList, "t".toList, "done".toList, [], [], "red".toList, "blue".toList, []⟩

def c2WitnessB : GNode :=
  ⟨"b".toList, "b".toList, "t".toList, [], [], [], "pink".toList, "gray".toList, []⟩

theorem C2_recolor_roundtrip_witness :
    (ordinaryList (prettyItUp (reversedList (initState [c2WitnessA, c2WitnessB])))).nodes
      = [c2WitnessA, c2WitnessB] :=
  (C2_recolor_roundtrip_amended (initState [c2WitnessA, c2WitnessB])
    (by decide) (by decide) (by decide)).2

theorem stash_preserved_step (op : Automation) (s : EngineState) (x c : Str)
    (h : mapLookup s.nodeOriginalColors x = some c) :
    mapLookup (executeAutomation op s).nodeOriginalColors x = some c := by
  cases op
  case prettyItUp =>
    show mapLookup (prettyVisit s.nodes s.nodeOriginalColors).2 x = some c
    rw [prettyVisit_stash_lookup, h]
  case reversedList =>
    show mapLookup (reversedVisit s.nodes s.nodeOriginalColors).2 x = some c
    rw [reversedVisit_stash_lookup, h]
  all_goals exact h

/-- Claim C10 (confirmed): once a pre-automation color is recorded in the
    original-color map, no sequence of automation dispatches ever
    overwrites or removes that entry — the two recording sites
    (prettyItUp, reversedList) store only when no entry exists, and the
    restoring operations (colorBombing, runAway, ordinaryList) read the
    map without deleting from it. -/
theorem C10_stash_stability (ops : List Automation) (s : EngineState) (x c : Str)
    (h : mapLookup s.nodeOriginalColors x = some c) :
    mapLookup (runAutomations ops s).nodeOriginalColors x = some c := by
  induction ops generalizing s with
  | nil => exact h
  | cons op rest ih =>
    exact ih (executeAutomation op s) (stash_preserved_step op s x c h)

def c10State : EngineState :=
  { nodes := [⟨"a".toList, "a".toList, "t".toList, "done".toList, [], [],
      "cyan".toList, "teal".toList, []⟩]
    nodeOriginalColors := [("a".toList, "red".toList)]
    nodeOriginalShapes := []
    isTidyMode := false
    isEisenhowerMode := false
    isPrettyMode := false
    isCoworkingMode := false
    isWriteDownMode := false
    isReversedListMode := false }

/-- Witness for C10: a stashed entry survives a concrete dispatch
    sequence that stashes, restores and recolors. -/
theorem C10_stash_stability_witness :
    mapLookup (runAutomations
        [Automation.prettyItUp, Automation.reversedList, Automation.colorBombing,
          Automation.ordinaryList] c10State).nodeOriginalColors ("a".toList)
      = some ("red".toList) :=
  C10_stash_stability
    [Automation.prettyItUp, Automation.reversedList, Automation.colorBombing,
      Automation.ordinaryList] c10State ("a".toList) ("red".toList) (by rfl)

/- Link construction of normalizeData (src/main.js lines 107 to 127):
   techniqueMap lookup, self and missing-target guards, and deduplication
   through the key sort([a, b]).join(pipe). -/

/-- Embedding of techniqueMap: id to node, built by Map.set in row order
    (src/main.js line 103). -/
def techniqueMap (ns : List GNode) : List (Str × GNode) :=
  buildMap (fun n => n) ns

/-- The deduplication key of src/main.js line 115: the two endpoint ids
    sorted by the JS default comparison and joined with the pipe
    character. -/
def linkKey (a b : Str) : Str :=
  if strLt a b then a ++ '|' :: b else b ++ '|' :: a

/-- Key of an existing link record. -/
def lkeyOf (l : RawLink) : Str := linkKey l.source l.target

/-- Inner loop body of the link construction (src/main.js lines 112 to
    124): resolve the connected name, drop self and unknown targets,
    deduplicate by key, push the link. -/
def addConn (tmap : List (Str × GNode)) (nid : Str)
    (acc : List Str × List RawLink) (cname : Str) : List Str × List RawLink :=
  match mapLookup tmap cname with
  | none => acc
  | some t =>
    if t.id = nid then acc
    else
      let key := linkKey nid t.id
      if key ∈ acc.1 then acc
      else (acc.1 ++ [key], acc.2 ++ [⟨nid, t.id⟩])

/-- The (linkSet, links) pair after the two nested forEach loops of
    normalizeData. -/
def buildLinksAcc (ns : List GNode) : List Str × List RawLink :=
  ns.foldl
    (fun acc n => n.connectedTechniques.foldl (addConn (techniqueMap ns) n.id) acc)
    ([], [])

/-- The links array normalizeData returns. -/
def buildLinks (ns : List GNode) : List RawLink := (buildLinksAcc ns).2

/-- One undirected link with the endpoints a and b, in either order. -/
def samePairB (a b : Str) (l : RawLink) : Bool :=
  (l.source == a && l.target == b) || (l.source == b && l.target == a)

theorem strLt_asymm (a b : Str) (h : strLt a b = true) : strLt b a = false := by
  induction a generalizing b with
  | nil =>
    cases b with
    | nil => cases h
    | cons y ys => rfl
  | cons x xs ih =>
    cases b with
    | nil => cases h
    | cons y ys =>
      simp only [strLt] at h ⊢
      by_cases hxy : x < y
      · rw [if_pos hxy] at h
        have hyx : ¬y < x := lt_asymm hxy
        rw [if_neg hyx, if_pos hxy]
      · rw [if_neg hxy] at h
        by_cases hyx : y < x
        · rw [if_pos hyx] at h
          cases h
        · rw [if_neg hyx] at h
          rw [if_neg hyx, if_neg hxy]
          exact ih ys h

theorem strLt_both_false (a b : Str) (hab : strLt a b = false) (hba : strLt b a = false) :
    a = b := by
  induction a generalizing b with
  | nil =>
    cases b with
    | nil => rfl
    | cons y ys => cases hab
  | cons x xs ih =>
    cases b with
    | nil => cases hba
    | cons y ys =>
      simp only [strLt] at hab hba
      by_cases hxy : x < y
      · rw [if_pos hxy] at hab
        cases hab
      · by_cases hyx : y < x
        · rw [if_pos hyx] at hba
          cases hba
        · rw [if_neg hxy, if_neg hyx] at hab
          rw [if_neg hyx, if_neg hxy] at hba
          have hx : x = y := le_antisymm (not_lt.mp hyx) (not_lt.mp hxy)
          rw [hx, ih ys hab hba]

theorem linkKey_comm (a b : Str) (h : a ≠ b) : linkKey a b = linkKey b a := by
  unfold linkKey
  cases hab : strLt a b with
  | true =>
    rw [strLt_asymm a b hab]
    rfl
  | false =>
    cases hba : strLt b a with
    | true => rfl
    | false => exact absurd (strLt_both_false a b hab hba) h

theorem pipeSplit (a : Str) (ha : '|' ∉ a) :
    ∀ (c : Str), '|' ∉ c → ∀ (b d : Str),
      a ++ '|' :: b = c ++ '|' :: d → a = c ∧ b = d := by
  induction a with
  | nil =>
    intro c hc b d h
    cases c with
    | nil => exact ⟨rfl, by simpa using h⟩
    | cons z zs =>
      simp only [List.nil_append, List.cons_append, List.cons.injEq] at h
      exact absurd (h.1 ▸ List.mem_cons_self z zs) (h.1 ▸ hc)
  | cons x xs ih =>
    intro c hc b d h
    cases c with
    | nil =>
      simp only [List.cons_append, List.nil_append, List.cons.injEq] at h
      exact absurd (h.1 ▸ List.mem_cons_self x xs) (h.1 ▸ ha)
    | cons z zs =>
      simp only [List.cons_append, List.cons.injEq] at h
      have hxz : x = z := h.1
      have ha2 : '|' ∉ xs := fun hm => ha (List.mem_cons_of_mem x hm)
      have hc2 : '|' ∉ zs := fun hm => hc (List.mem_cons_of_mem z hm)
      obtain ⟨h1, h2⟩ := ih ha2 zs hc2 b d h.2
      exact ⟨by rw [hxz, h1], h2⟩

theorem linkKey_inj (a b c d : Str) (ha : '|' ∉ a) (hb : '|' ∉ b) (hc : '|' ∉ c)
    (hd : '|' ∉ d) (h : linkKey a b = linkKey c d) :
    (a = c ∧ b = d) ∨ (a = d ∧ b = c) := by
  unfold linkKey at h
  by_cases h1 : strLt a b = true
  · rw [if_pos h1] at h
    by_cases h2 : strLt c d = true
    · rw [if_pos h2] at h
      exact Or.inl (pipeSplit a ha c hc b d h)
    · rw [if_neg h2] at h
      exact Or.inr (pipeSplit a ha d hd b c h)
  · rw [if_neg h1] at h
    by_cases h2 : strLt c d = true
    · rw [if_pos h2] at h
      obtain ⟨e1, e2⟩ := pipeSplit b hb c hc a d h
      exact Or.inr ⟨e2, e1⟩
    · rw [if_neg h2] at h
      obtain ⟨e1, e2⟩ := pipeSplit b hb d hd a c h
      exact Or.inl ⟨e2, e1⟩

/-- Invariant of the link-construction fold: every produced link is a
    non-self pair of existing node ids, the key set holds exactly the keys
    of the produced links, and those keys are pairwise distinct. -/
def LinksOK (ns : List GNode) (acc : List Str × List RawLink) : Prop :=
  (∀ l ∈ acc.2, l.source ≠ l.target
      ∧ (∃ a ∈ ns, a.id = l.source) ∧ (∃ b ∈ ns, b.id = l.target))
    ∧ (∀ k, k ∈ acc.1 ↔ k ∈ acc.2.map lkeyOf)
    ∧ (acc.2.map lkeyOf).Nodup

theorem addConn_OK (ns : List GNode) (nid : Str) (acc : List Str × List RawLink)
    (cname : Str) (hnid : ∃ a ∈ ns, a.id = nid) (h : LinksOK ns acc) :
    LinksOK ns (addConn (techniqueMap ns) nid acc cname) := by
  unfold addConn
  cases hM : mapLookup (techniqueMap ns) cname with
  | none => exact h
  | some t =>
    obtain ⟨m, hmem, hmid, hvm⟩ := buildMap_lookup_some (fun n => n) ns cname t hM
    show LinksOK ns (if t.id = nid then acc
      else if linkKey nid t.id ∈ acc.1 then acc
      else (acc.1 ++ [linkKey nid t.id], acc.2 ++ [⟨nid, t.id⟩]))
    by_cases heq : t.id = nid
    · rw [if_pos heq]
      exact h
    · rw [if_neg heq]
      by_cases hkey : linkKey nid t.id ∈ acc.1
      · simp only [if_pos hkey]
        exact h
      · simp only [if_neg hkey]
        obtain ⟨h1, h2, h3⟩ := h
        refine ⟨?_, ?_, ?_⟩
        · intro l hl
          rcases List.mem_append.mp hl with hold | hnew
          · exact h1 l hold
          · have : l = ⟨nid, t.id⟩ := List.mem_singleton.mp hnew
            subst this
            exact ⟨fun he => heq he.symm, hnid, ⟨t, by rw [hvm]; exact hmem, rfl⟩⟩
        · intro k
          rw [List.map_append, List.mem_append, List.mem_append, ← h2 k]
          simp [lkeyOf]
        · rw [List.map_append]
          rw [List.nodup_append]
          refine ⟨h3, List.nodup_singleton _, ?_⟩
          intro k hk1 hk2
          simp only [List.map_cons, List.map_nil, List.mem_singleton] at hk2
          subst hk2
          exact hkey ((h2 _).mpr hk1)

theorem addConn_keys_mono (tmap : List (Str × GNode)) (nid : Str)
    (acc : List Str × List RawLink) (cname : Str) (k : Str) (hk : k ∈ acc.1) :
    k ∈ (addConn tmap nid acc cname).1 := by
  unfold addConn
  cases mapLookup tmap cname with
  | none => exact hk
  | some t =>
    show k ∈ (if t.id = nid then acc
      else if linkKey nid t.id ∈ acc.1 then acc
      else (acc.1 ++ [linkKey nid t.id], acc.2 ++ [⟨nid, t.id⟩])).1
    by_cases heq : t.id = nid
    · rw [if_pos heq]
      exact hk
    · rw [if_neg heq]
      by_cases hkey : linkKey nid t.id ∈ acc.1
      · simp only [if_pos hkey]
        exact hk
      · simp only [if_neg hkey]
        exact List.mem_append.mpr (Or.inl hk)

theorem foldConns_OK (ns : List GNode) (nid : Str) (cnames : List Str)
    (hnid : ∃ a ∈ ns, a.id = nid) :
    ∀ (acc : List Str × List RawLink), LinksOK ns acc →
      LinksOK ns (cnames.foldl (addConn (techniqueMap ns) nid) acc) := by
  induction cnames with
  | nil => intro acc h; exact h
  | cons c rest ih =>
    intro acc h
    exact ih (addConn (techniqueMap ns) nid acc c) (addConn_OK ns nid acc c hnid h)

theorem foldConns_keys_mono (tmap : List (Str × GNode)) (nid : Str) (cnames : List Str)
    (k : Str) :
    ∀ (acc : List Str × List RawLink), k ∈ acc.1 →
      k ∈ (cnames.foldl (addConn tmap nid) acc).1 := by
  induction cnames with
  | nil => intro acc hk; exact hk
  | cons c rest ih =>
    intro acc hk
    exact ih (addConn tmap nid acc c) (addConn_keys_mono tmap nid acc c k hk)

theorem addConn_adds (tmap : List (Str × GNode)) (nid : Str)
    (acc : List Str × List RawLink) (cname : Str) (t : GNode)
    (hM : mapLookup tmap cname = some t) (hne : t.id ≠ nid) :
    linkKey nid t.id ∈ (addConn tmap nid acc cname).1 := by
  unfold addConn
  rw [hM]
  show linkKey nid t.id ∈ (if t.id = nid then acc
    else if linkKey nid t.id ∈ acc.1 then acc
    else (acc.1 ++ [linkKey nid t.id], acc.2 ++ [⟨nid, t.id⟩])).1
  rw [if_neg hne]
  by_cases hkey : linkKey nid t.id ∈ acc.1
  · simp only [if_pos hkey]
    exact hkey
  · simp only [if_neg hkey]
    exact List.mem_append.mpr (Or.inr (List.mem_singleton.mpr rfl))

theorem foldConns_adds (tmap : List (Str × GNode)) (nid : Str) (cnames : List Str) :
    ∀ (acc : List Str × List RawLink) (cname : Str) (t : GNode), cname ∈ cnames →
      mapLookup tmap cname = some t → t.id ≠ nid →
      linkKey nid t.id ∈ (cnames.foldl (addConn tmap nid) acc).1 := by
  induction cnames with
  | nil =>
    intro acc cname t hmem
    cases hmem
  | cons c rest ih =>
    intro acc cname t hmem hM hne
    rcases List.mem_cons.mp hmem with heq | hmem2
    · rw [heq] at hM
      exact foldConns_keys_mono tmap nid rest _ (addConn tmap nid acc c)
        (addConn_adds tmap nid acc c t hM hne)
    · exact ih (addConn tmap nid acc c) cname t hmem2 hM hne

theorem foldNodes_OK (ns : List GNode) (l : List GNode) (hsub : ∀ n ∈ l, n ∈ ns) :
    ∀ (acc : List Str × List RawLink), LinksOK ns acc →
      LinksOK ns (l.foldl
        (fun acc n => n.connectedTechniques.foldl (addConn (techniqueMap ns) n.id) acc)
        acc) := by
  induction l with
  | nil => intro acc h; exact h
  | cons n rest ih =>
    intro acc h
    exact ih (fun m hm => hsub m (List.mem_cons_of_mem n hm)) _
      (foldConns_OK ns n.id n.connectedTechniques
        ⟨n, hsub n (List.mem_cons_self n rest), rfl⟩ acc h)

theorem foldNodes_keys_mono (ns : List GNode) (l : List GNode) (k : Str) :
    ∀ (acc : List Str × List RawLink), k ∈ acc.1 →
      k ∈ (l.foldl
        (fun acc n => n.connectedTechniques.foldl (addConn (techniqueMap ns) n.id) acc)
        acc).1 := by
  induction l with
  | nil => intro acc hk; exact hk
  | cons n rest ih =>
    intro acc hk
    exact ih _ (foldConns_keys_mono (techniqueMap ns) n.id n.connectedTechniques k acc hk)

theorem foldNodes_adds (ns : List GNode) (l : List GNode) :
    ∀ (acc : List Str × List RawLink) (A : GNode) (cname : Str) (t : GNode), A ∈ l →
      cname ∈ A.connectedTechniques →
      mapLookup (techniqueMap ns) cname = some t → t.id ≠ A.id →
      linkKey A.id t.id ∈ (l.foldl
        (fun acc n => n.connectedTechniques.foldl (addConn (techniqueMap ns) n.id) acc)
        acc).1 := by
  induction l with
  | nil =>
    intro acc A cname t hA
    cases hA
  | cons n rest ih =>
    intro acc A cname t hA hmem hM hne
    rcases List.mem_cons.mp hA with heq | hA2
    · rw [heq] at hmem hne ⊢
      exact foldNodes_keys_mono ns rest _ _
        (foldConns_adds (techniqueMap ns) n.id n.connectedTechniques acc cname t hmem hM hne)
    · exact ih _ A cname t hA2 hmem hM hne

theorem countP_eq_one_of_nodup_mem {α : Type} [DecidableEq α] (l : List α) (a : α)
    (hN : l.Nodup) (ha : a ∈ l) : l.countP (fun x => decide (x = a)) = 1 := by
  induction l with
  | nil => cases ha
  | cons b rest ih =>
    rw [List.countP_cons]
    by_cases hab : b = a
    · subst hab
      have hzero : rest.countP (fun x => decide (x = b)) = 0 := by
        rw [List.countP_eq_zero]
        intro x hx
        have hne : x ≠ b := fun he => (List.nodup_cons.mp hN).1 (he ▸ hx)
        simp [hne]
      simp [hzero]
    · have hmem : a ∈ rest := by
        rcases List.mem_cons.mp ha with h1 | h2
        · exact absurd h1.symm hab
        · exact h2
      rw [ih (List.nodup_cons.mp hN).2 hmem]
      simp [hab]

/-- Claim C6 (corrected), amended: unconditionally — for every node set —
    no produced link is a self link or mentions a non-existent id; and for
    node sets with unique ids whose ids do not contain the pipe character
    of the join, for every pair of distinct existing nodes A and B where A
    lists B or B lists A (in any order, with any repetition), exactly one
    undirected link with the endpoints A and B is produced, deduplicated
    through the canonical sorted-pair key. -/
theorem C6_link_dedup_amended (ns : List GNode) :
    (∀ l ∈ buildLinks ns, l.source ≠ l.target
        ∧ (∃ a ∈ ns, a.id = l.source) ∧ (∃ b ∈ ns, b.id = l.target))
      ∧ ((ns.map GNode.id).Nodup → (∀ n ∈ ns, '|' ∉ n.id) →
          ∀ A B : GNode, A ∈ ns → B ∈ ns → A.id ≠ B.id →
            (B.id ∈ A.connectedTechniques ∨ A.id ∈ B.connectedTechniques) →
            (buildLinks ns).countP (samePairB A.id B.id) = 1) := by
  have hOK : LinksOK ns (buildLinksAcc ns) := by
    apply foldNodes_OK ns ns (fun n hn => hn)
    refine ⟨?_, ?_, ?_⟩
    · intro l hl
      simp at hl
    · intro k
      simp
    · exact List.nodup_nil
  obtain ⟨hOK1, hOK2, hOK3⟩ := hOK
  refine ⟨hOK1, ?_⟩
  intro hN hP A B hA hB hAB hrel
  have hkey : linkKey A.id B.id ∈ (buildLinksAcc ns).1 := by
    rcases hrel with hmem | hmem
    · have hM : mapLookup (techniqueMap ns) B.id = some B :=
        buildMap_lookup_self (fun n => n) ns hN B hB
      exact foldNodes_adds ns ns ([], []) A B.id B hA hmem hM (fun he => hAB he.symm)
    · have hM : mapLookup (techniqueMap ns) A.id = some A :=
        buildMap_lookup_self (fun n => n) ns hN A hA
      have hin := foldNodes_adds ns ns ([], []) B A.id A hB hmem hM hAB
      rw [linkKey_comm B.id A.id (fun he => hAB he.symm)] at hin
      exact hin
  have hexists : linkKey A.id B.id ∈ (buildLinks ns).map lkeyOf := (hOK2 _).mp hkey
  have hpt : ∀ l ∈ buildLinks ns,
      (samePairB A.id B.id l = true ↔ decide (lkeyOf l = linkKey A.id B.id) = true) := by
    intro l hl
    obtain ⟨hlst, ⟨a, hams, haid⟩, ⟨b, hbms, hbid⟩⟩ := hOK1 l hl
    have hsp : '|' ∉ l.source := haid ▸ hP a hams
    have htp : '|' ∉ l.target := hbid ▸ hP b hbms
    have hpa : '|' ∉ A.id := hP A hA
    have hpb : '|' ∉ B.id := hP B hB
    constructor
    · intro hsame
      simp only [samePairB, Bool.or_eq_true, Bool.and_eq_true, beq_iff_eq] at hsame
      rcases hsame with ⟨e1, e2⟩ | ⟨e1, e2⟩
      · simp [lkeyOf, e1, e2]
      · simp only [decide_eq_true_eq, lkeyOf, e1, e2]
        exact linkKey_comm B.id A.id (fun he => hAB he.symm)
    · intro hdec
      have hkeq : lkeyOf l = linkKey A.id B.id := of_decide_eq_true hdec
      unfold lkeyOf at hkeq
      rcases linkKey_inj l.source l.target A.id B.id hsp htp hpa hpb hkeq with
        ⟨e1, e2⟩ | ⟨e1, e2⟩
      · simp [samePairB, e1, e2]
      · simp [samePairB, e1, e2]
  have hcount : (buildLinks ns).countP (samePairB A.id B.id)
      = (buildLinks ns).countP (fun l => decide (lkeyOf l = linkKey A.id B.id)) :=
    List.countP_congr hpt
  have hmapcount : (buildLinks ns).countP (fun l => decide (lkeyOf l = linkKey A.id B.id))
      = ((buildLinks ns).map lkeyOf).countP (fun k => decide (k = linkKey A.id B.id)) := by
    rw [List.countP_map]
    rfl
  rw [hcount, hmapcount]
  exact countP_eq_one_of_nodup_mem _ _ hOK3 hexists

def pipeNodeA : GNode :=
  ⟨"a".toList, "a".toList, [], [], [], [], "r".toList, "p".toList, ["b|c".toList]⟩

def pipeNodeBC : GNode :=
  ⟨"b|c".toList, "b|c".toList, [], [], [], [], "r".toList, "p".toList, []⟩

def pipeNodeAB : GNode :=
  ⟨"a|b".toList, "a|b".toList, [], [], [], [], "r".toList, "p".toList, ["c".toList]⟩

def pipeNodeC : GNode :=
  ⟨"c".toList, "c".toList, [], [], [], [], "r".toList, "p".toList, []⟩

/-- Claim C6 (corrected), counterexample: ids may contain the pipe
    character of the join, and then two different unordered pairs collide
    on one key. With nodes a, b|c, a|b, c where a lists b|c and a|b lists
    c, both pairs produce the key a|b|c; the second link is silently
    dropped, so the distinct existing pair (a|b, c), one listing the
    other, yields zero links instead of exactly one. -/
theorem C6_link_dedup_counterexample :
    ("c".toList ∈ pipeNodeAB.connectedTechniques)
      ∧ (([pipeNodeA, pipeNodeBC, pipeNodeAB, pipeNodeC].map GNode.id).Nodup)
      ∧ buildLinks [pipeNodeA, pipeNodeBC, pipeNodeAB, pipeNodeC]
          = [⟨"a".toList, "b|c".toList⟩]
      ∧ (buildLinks [pipeNodeA, pipeNodeBC, pipeNodeAB, pipeNodeC]).countP
          (samePairB ("a|b".toList) ("c".toList)) = 0 := by
  exact ⟨by decide, by decide, by decide, by decide⟩

def c6NodeA : GNode :=
  ⟨"a".toList, "a".toList, [], [], [], [], "r".toList, "p".toList,
    ["b".toList, "b".toList, "a".toList, "zzz".toList]⟩

def c6NodeB : GNode :=
  ⟨"b".toList, "b".toList, [], [], [], [], "r".toList, "p".toList, ["a".toList]⟩

/-- Witness for C6: two nodes listing each other with repetition, plus a
    self reference and a dangling reference, produce exactly one link,
    and the produced link is not a self link. -/
theorem C6_link_dedup_witness :
    (buildLinks [c6NodeA, c6NodeB]).countP (samePairB c6NodeA.id c6NodeB.id) = 1
      ∧ (⟨"a".toList, "b".toList⟩ : RawLink).source
          ≠ (⟨"a".toList, "b".toList⟩ : RawLink).target :=
  ⟨(C6_link_dedup_amended [c6NodeA, c6NodeB]).2 (by decide) (by decide) c6NodeA c6NodeB
      (by decide) (by decide) (by decide) (Or.inl (by decide)),
   ((C6_link_dedup_amended [c6NodeA, c6NodeB]).1 ⟨"a".toList, "b".toList⟩ (by decide)).1⟩
